import Mathlib

/-!
Shallow embedding of the crossmarks line parser (`src/main.rs`).

Strings are modelled as `List Char`; byte indices of the Rust code coincide
with character indices on the ASCII inputs considered throughout, and the
`String` type of Rust is a sequence of characters here.  Rust's
`char::is_whitespace` (the Unicode White_Space property) is modelled by its
ASCII fragment, which covers every character occurring in the inputs of the
development.  A Rust slice expression `&value[a..b]` panics when `a > b` or
`b > value.len()`; this partiality is made explicit with `Option`, and the
outcome type of the parser has an explicit `panic` constructor.
-/

/-- ASCII fragment of Rust `char::is_whitespace`. -/
def rustIsWhitespace (c : Char) : Bool :=
  c == ' ' || c == '\t' || c == '\n' || c == '\r' || c == '\x0b' || c == '\x0c'

/-- Rust `str::trim_start`: drop leading whitespace. -/
def trimStart (s : List Char) : List Char :=
  s.dropWhile rustIsWhitespace

/-- Rust `str::starts_with('#')`. -/
def startsWithHash : List Char → Bool
  | [] => false
  | c :: _ => c == '#'

/-- Rust `str::split(' ')`: the pieces of the string between the space
characters (`"".split(' ')` yields one empty piece). -/
def splitSpace : List Char → List (List Char)
  | [] => [[]]
  | c :: rest =>
    if c = ' ' then [] :: splitSpace rest
    else
      match splitSpace rest with
      | [] => [[c]]
      | h :: t => (c :: h) :: t

/-- Rust `str::find(' ')`: index of the first space character, if any. -/
def findSpace : List Char → Option Nat
  | [] => none
  | c :: rest => if c = ' ' then some 0 else (findSpace rest).map (· + 1)

/-- Rust slice `&s[a..b]`: `none` models the panic on an invalid range
(`a > b` or `b > s.len()`). -/
def rustSlice (s : List Char) (a b : Nat) : Option (List Char) :=
  if a ≤ b ∧ b ≤ s.length then some ((s.take b).drop a) else none

/-- The `Bookmark` struct of `src/main.rs`: the original line together with
the two indices computed by `try_from`. -/
structure Bookmark where
  _input : List Char
  first_space_idx : Nat
  second_space_idx : Nat
  deriving DecidableEq

/-- `Bookmark::alias`: `&self._input[..self.first_space_idx]`. -/
def Bookmark.alias (b : Bookmark) : List Char :=
  b._input.take b.first_space_idx

/-- `Bookmark::path`: `&self._input[self.first_space_idx + 1..self.second_space_idx]`.
On the bookmarks produced by the parser the range is valid, so the total
`take`/`drop` form agrees with the Rust slice. -/
def Bookmark.path (b : Bookmark) : List Char :=
  (b._input.take b.second_space_idx).drop (b.first_space_idx + 1)

/-- The `BookmarkError` enum of `src/main.rs`. -/
inductive BookmarkError where
  | CommentLine (line : List Char)
  | InvalidFormat (line : List Char)
  deriving DecidableEq

/-- Outcome of `TryFrom<String> for Bookmark`, with the possible slice
panic made explicit. -/
inductive ParseOutcome where
  | panic
  | err (e : BookmarkError)
  | ok (b : Bookmark)
  deriving DecidableEq

/-- `TryFrom<String> for Bookmark` (`src/main.rs` lines 99–128), line by line:
comment check via `trim_start().starts_with('#')`; the `split(' ').count() < 2`
guard; `first_space_idx = value.find(' ').unwrap()` (the `none` branch models
the `unwrap` panic, unreachable under the guard);
`second_space_idx = value[first_space_idx + 1..].find(' ').unwrap_or(value.len())`
— note the source uses the index *relative to the tail slice* as if it were
absolute; then the short-circuit emptiness checks on
`value[..first_space_idx]` and `value[first_space_idx + 1..second_space_idx]`,
where the second slice panics when `second_space_idx < first_space_idx + 1`. -/
def tryFrom (value : List Char) : ParseOutcome :=
  if startsWithHash (trimStart value) then .err (.CommentLine value)
  else if (splitSpace value).length < 2 then .err (.InvalidFormat value)
  else
    match findSpace value with
    | none => .panic
    | some first_space_idx =>
      let second_space_idx :=
        match findSpace (value.drop (first_space_idx + 1)) with
        | some k => k
        | none => value.length
      if (value.take first_space_idx).isEmpty then .err (.InvalidFormat value)
      else
        match rustSlice value (first_space_idx + 1) second_space_idx with
        | none => .panic
        | some p =>
          if p.isEmpty then .err (.InvalidFormat value)
          else .ok ⟨value, first_space_idx, second_space_idx⟩

/-- The `(alias, path)` pair of a successful parse, if any. -/
def parsedPair : ParseOutcome → Option (List Char × List Char)
  | .ok b => some (b.alias, b.path)
  | _ => none

/-- Whether the outcome is a successful parse. -/
def ParseOutcome.isParsed : ParseOutcome → Bool
  | .ok _ => true
  | _ => false

/-- Whether the outcome is the `CommentLine` error. -/
def ParseOutcome.isComment : ParseOutcome → Bool
  | .err (.CommentLine _) => true
  | _ => false

/-- Outcome of `TryFrom<File> for Bookmarks`: either a panic of the line
parser, or the first `InvalidFormat` error (carrying that line), or the
list of parsed bookmarks. -/
inductive FileOutcome where
  | panic
  | error (line : List Char)
  | ok (bs : List Bookmark)
  deriving DecidableEq

/-- `TryFrom<File> for Bookmarks` (`src/main.rs` lines 143–160) on the list of
lines of the file: each line is parsed in order; `CommentLine` results are
filtered out (`filter_map` returning `None`); the `collect` into
`Result<Vec<_>, _>` stops at the first `InvalidFormat` error. -/
def processLines : List (List Char) → FileOutcome
  | [] => .ok []
  | l :: ls =>
    match tryFrom l with
    | .panic => .panic
    | .err (.CommentLine _) => processLines ls
    | .err (.InvalidFormat t) => .error t
    | .ok b =>
      match processLines ls with
      | .ok bs => .ok (b :: bs)
      | e => e

/-- The bookmarks of the lines that parse successfully, in file order. -/
def parsedBookmarks (ls : List (List Char)) : List Bookmark :=
  ls.filterMap fun l =>
    match tryFrom l with
    | .ok b => some b
    | _ => none

/-! Helper lemmas about the string primitives. -/

theorem splitSpace_ne_nil (s : List Char) : splitSpace s ≠ [] := by
  cases s with
  | nil => simp [splitSpace]
  | cons c rest =>
    simp only [splitSpace]
    split
    · simp
    · split <;> simp

theorem splitSpace_of_not_mem {s : List Char} (h : ' ' ∉ s) : splitSpace s = [s] := by
  induction s with
  | nil => rfl
  | cons c rest ih =>
    have hc : ¬ (c = ' ') := fun he => h (by rw [he]; exact List.mem_cons_self _ _)
    have hr : ' ' ∉ rest := fun hm => h (List.mem_cons_of_mem c hm)
    simp only [splitSpace, if_neg hc, ih hr]

theorem two_le_splitSpace_length {s : List Char} (h : ' ' ∈ s) :
    2 ≤ (splitSpace s).length := by
  induction s with
  | nil => cases h
  | cons c rest ih =>
    simp only [splitSpace]
    split
    · have := List.length_pos.mpr (splitSpace_ne_nil rest)
      simp only [List.length_cons]
      omega
    · next hc =>
      have hr : ' ' ∈ rest := by
        rcases List.mem_cons.mp h with h1 | h1
        · exact absurd h1.symm hc
        · exact h1
      split
      · next heq => exact absurd heq (splitSpace_ne_nil rest)
      · next hh t heq =>
        have h2 := ih hr
        rw [heq] at h2
        simp only [List.length_cons] at h2 ⊢
        omega

theorem findSpace_eq_none_iff {s : List Char} : findSpace s = none ↔ ' ' ∉ s := by
  induction s with
  | nil => simp [findSpace]
  | cons c rest ih =>
    simp only [findSpace, List.mem_cons]
    split
    · next hc => subst hc; simp
    · next hc =>
      rw [Option.map_eq_none', ih]
      constructor
      · intro hr h1
        rcases h1 with h1 | h1
        · exact hc h1.symm
        · exact hr h1
      · intro hcr h1
        exact hcr (Or.inr h1)

theorem findSpace_append {a : List Char} (r : List Char) (h : ' ' ∉ a) :
    findSpace (a ++ ' ' :: r) = some a.length := by
  induction a with
  | nil => simp [findSpace]
  | cons c a' ih =>
    have hc : ¬ (c = ' ') := fun he => h (by rw [he]; exact List.mem_cons_self _ _)
    have ha : ' ' ∉ a' := fun hm => h (List.mem_cons_of_mem c hm)
    simp [findSpace, if_neg hc, ih ha]

theorem findSpace_take {s : List Char} {i : Nat} (h : findSpace s = some i) :
    ' ' ∉ s.take i := by
  induction s generalizing i with
  | nil => simp [findSpace] at h
  | cons c rest ih =>
    simp only [findSpace] at h
    split at h
    · simp only [Option.some.injEq] at h
      subst h
      simp
    · next hc =>
      cases hrest : findSpace rest with
      | none => rw [hrest] at h; simp at h
      | some k =>
        rw [hrest] at h
        simp only [Option.map_some', Option.some.injEq] at h
        subst h
        simp only [List.take_succ_cons, List.mem_cons]
        rintro (h1 | h1)
        · exact hc h1.symm
        · exact absurd h1 (ih hrest)

/-! Claim theorems. -/

/-- C1 (counterexample): on the line `alias "quoted path with spaces #and hash"`
the parser does not return the quoted content as the path, refuting the
quoted-form grammar of the claim. -/
theorem c1_quoted_cex :
    parsedPair (tryFrom "alias \"quoted path with spaces #and hash\"".data) ≠
      some ("alias".data, "quoted path with spaces #and hash".data) := by
  decide

/-- C1 (amended): there is no quoted form; on the line
`alias "quoted path with spaces #and hash"` parsing succeeds and yields the
alias `alias` with path `"` — the single character between the first space and
the tail-relative index of the second space that the code misuses as an
absolute index. -/
theorem c1_quoted_amended :
    parsedPair (tryFrom "alias \"quoted path with spaces #and hash\"".data) =
      some ("alias".data, "\"".data) := by
  decide

/-- C2 (code bug): on the line `a b c` the parser does not return any of the
three classifications: the second-space index is computed relative to the
tail slice but used as an absolute index, so the path slice has its start
after its end and the Rust code panics. -/
theorem c2_totality_bug : tryFrom "a b c".data = .panic := by decide

/-- C3 (counterexample): on the line `a bc# trailing` the parser does not
yield the pair `(a, bc)`: `#` does not terminate an unquoted path. -/
theorem c3_hash_cex :
    parsedPair (tryFrom "a bc# trailing".data) ≠ some ("a".data, "bc".data) := by
  decide

/-- C3 (amended): `#` has no terminating role; on `a bc# trailing` parsing
succeeds and yields `(a, b)` — the path is cut at the tail-relative index of
the second space, not at `#`. -/
theorem c3_hash_amended :
    parsedPair (tryFrom "a bc# trailing".data) = some ("a".data, "b".data) := by
  decide

/-- C4 (counterexample): the line `alias "unterminated` is parsed successfully,
so it is not classified `Malformed`. -/
theorem c4_unterminated_cex :
    ParseOutcome.isParsed (tryFrom "alias \"unterminated".data) = true := by
  decide

/-- C4 (amended): a double-quote after the separator has no special meaning;
the line `alias "unterminated` parses under the space-splitting rule to the
pair `(alias, "unterminated)` with the quote kept inside the path. -/
theorem c4_unterminated_amended :
    parsedPair (tryFrom "alias \"unterminated".data) =
      some ("alias".data, "\"unterminated".data) := by
  decide

/-- C5 (counterexample): on `ab  cd` — alias, two spaces, path — the parser
panics instead of yielding `(ab, cd)`: the second space is found at
tail-relative index 0, and the path slice from `first_space_idx + 1` to 0 is
invalid. -/
theorem c5_multispace_cex :
    tryFrom "ab  cd".data = .panic ∧
      parsedPair (tryFrom "ab  cd".data) ≠ some ("ab".data, "cd".data) := by
  decide

/-- C6 (counterexample): the line `a<TAB>b c` parses successfully to the alias
`a<TAB>b`, which contains the whitespace character `TAB`, refuting the
alias-has-no-whitespace invariant. -/
theorem c6_invariant_cex :
    parsedPair (tryFrom "a\tb c".data) = some ("a\tb".data, "c".data) ∧
      '\t' ∈ "a\tb".data ∧ rustIsWhitespace '\t' = true := by
  decide

/-- C7 (counterexample): converting the one-line file `ab cd ef` panics; it
does not return an error carrying the offending line's text. -/
theorem c7_failfast_cex :
    processLines ["ab cd ef".data] = .panic ∧
      processLines ["ab cd ef".data] ≠ .error "ab cd ef".data := by
  decide

/-- C8 (counterexample): the pair alias `#a`, path `b` satisfies the claim's
side conditions, yet the line `#a b` is classified as a comment and produces
no bookmark. -/
theorem c8_unquoted_cex :
    tryFrom "#a b".data = .err (.CommentLine "#a b".data) ∧
      parsedPair (tryFrom "#a b".data) = none := by
  decide

/-- C10 (counterexample): the line `abc <TAB>` is a non-comment line whose only
token is `abc`, yet it parses successfully to the bookmark `(abc, <TAB>)`
instead of being classified `Malformed`. -/
theorem c10_single_token_cex :
    parsedPair (tryFrom "abc \t".data) = some ("abc".data, "\t".data) ∧
      tryFrom "abc \t".data ≠ .err (.InvalidFormat "abc \t".data) := by
  decide

/-- C9: every line whose first character after stripping leading whitespace is
`#` is classified `CommentLine` — never `InvalidFormat`, never a bookmark —
and at file level it is dropped silently wherever it occurs: converting the
file with the comment line gives the same outcome as converting the file
without it, so the line never aborts the run and never contributes to the
output. -/
theorem c9_comment_thm (s : List Char)
    (h : startsWithHash (trimStart s) = true) :
    tryFrom s = .err (.CommentLine s) ∧
      ∀ pre rest : List (List Char),
        processLines (pre ++ s :: rest) = processLines (pre ++ rest) := by
  have hparse : tryFrom s = .err (.CommentLine s) := by
    simp [tryFrom, h]
  refine ⟨hparse, ?_⟩
  intro pre rest
  induction pre with
  | nil => simp [processLines, hparse]
  | cons x pre ih =>
    simp only [List.cons_append, processLines, List.append_eq]
    rw [ih]

/-- Witness for C9: the comment line `# hi` inside a two-line file. -/
theorem c9_comment_witness :
    tryFrom "# hi".data = .err (.CommentLine "# hi".data) ∧
      processLines ["a b".data, "# hi".data] = processLines ["a b".data] := by
  have h := c9_comment_thm "# hi".data (by decide)
  exact ⟨h.1, h.2 ["a b".data] []⟩

/-- C10 (amended): every non-comment line with no space character at all
(including the empty line and `justanalias`), and every non-comment line whose
only space character is its first or last character, is classified
`InvalidFormat` and produces no bookmark.  (A one-token line with trailing
whitespace other than a single final space can instead panic or even parse,
e.g. `abc <TAB>`.) -/
theorem c10_single_token_amended (s : List Char)
    (hcomment : startsWithHash (trimStart s) = false)
    (h : ' ' ∉ s ∨ (∃ t, ' ' ∉ t ∧ s = ' ' :: t) ∨ (∃ t, ' ' ∉ t ∧ s = t ++ [' '])) :
    tryFrom s = .err (.InvalidFormat s) := by
  rcases h with h | ⟨t, _, rfl⟩ | ⟨t, ht, rfl⟩
  · simp [tryFrom, hcomment, splitSpace_of_not_mem h]
  · have hfind : findSpace (' ' :: t) = some 0 := by simp [findSpace]
    simp [tryFrom, hcomment, hfind]
  · by_cases ht0 : t = []
    · subst ht0
      simp only [List.nil_append] at hcomment ⊢
      have hfind : findSpace [' '] = some 0 := by simp [findSpace]
      simp [tryFrom, hcomment, hfind]
    · have hmem : ' ' ∈ t ++ [' '] :=
        List.mem_append_right _ (List.mem_cons_self _ _)
      have hlen := two_le_splitSpace_length hmem
      have hlen' : ¬ ((splitSpace (t ++ [' '])).length < 2) := by omega
      have hfind : findSpace (t ++ [' ']) = some t.length := findSpace_append [] ht
      have hslen : (t ++ [' ']).length = t.length + 1 := by simp
      have hdrop : (t ++ [' ']).drop (t.length + 1) = [] := by
        rw [← hslen]
        exact List.drop_length _
      have htake : (t ++ [' ']).take t.length = t := List.take_left _ _
      have htakeall : (t ++ [' ']).take (t.length + 1) = t ++ [' '] := by
        rw [← hslen]
        exact List.take_length _
      have hslice :
          rustSlice (t ++ [' ']) (t.length + 1) (t.length + 1) = some [] := by
        simp only [rustSlice]
        rw [if_pos ⟨Nat.le_refl _, by omega⟩, htakeall, hdrop]
      simp [tryFrom, hcomment, hlen', hfind, hdrop, htake, findSpace, hslice, ht0]

/-- Witness for C10 (amended): the one-token line `justanalias`. -/
theorem c10_single_token_witness :
    tryFrom "justanalias".data = .err (.InvalidFormat "justanalias".data) :=
  c10_single_token_amended "justanalias".data (by decide) (Or.inl (by decide))

/-- Facts about a line of the shape `alias ++ ' ' :: rest` for a non-empty,
whitespace-free alias not beginning with `#`: the comment check fails, the
space-count guard passes, the first space sits at `alias.length`, and the
prefix before it and the suffix after it are recovered exactly. -/
theorem parseLine_head_facts (a r : List Char) (ha : a ≠ [])
    (haw : ∀ c ∈ a, rustIsWhitespace c = false)
    (hahash : a.head? ≠ some '#') :
    startsWithHash (trimStart (a ++ ' ' :: r)) = false ∧
      ¬ ((splitSpace (a ++ ' ' :: r)).length < 2) ∧
      findSpace (a ++ ' ' :: r) = some a.length ∧
      (a ++ ' ' :: r).take a.length = a ∧
      (a ++ ' ' :: r).drop (a.length + 1) = r := by
  have hsp : ' ' ∉ a := fun hm => by
    have h := haw ' ' hm
    simp [rustIsWhitespace] at h
  obtain ⟨c, a', rfl⟩ : ∃ c a', a = c :: a' := by
    cases a with
    | nil => exact absurd rfl ha
    | cons c a' => exact ⟨c, a', rfl⟩
  have hcw : rustIsWhitespace c = false := haw c (List.mem_cons_self _ _)
  have hchash : ¬ (c = '#') := by
    intro he
    exact hahash (by simp [he])
  refine ⟨?_, ?_, findSpace_append r hsp, List.take_left _ _, ?_⟩
  · have htrim : trimStart ((c :: a') ++ ' ' :: r) = c :: (a' ++ ' ' :: r) := by
      simp [trimStart, List.dropWhile_cons, hcw]
    rw [htrim]
    simp [startsWithHash, hchash]
  · have hmem : ' ' ∈ (c :: a') ++ ' ' :: r :=
      List.mem_append_right _ (List.mem_cons_self _ _)
    have h2 := two_le_splitSpace_length hmem
    omega
  · rw [List.append_cons, List.drop_left' (by simp)]

/-- C5 (amended): a non-comment line in which the alias is followed by two or
more consecutive spaces makes the parser panic instead of parsing: the second
space is found at tail-relative index 0, so the path slice runs from
`alias.length + 1` down to 0 and is invalid — whatever follows the two
spaces. -/
theorem c5_multispace_amended (a rest : List Char) (ha : a ≠ [])
    (haw : ∀ c ∈ a, rustIsWhitespace c = false)
    (hahash : a.head? ≠ some '#') :
    tryFrom (a ++ ' ' :: ' ' :: rest) = .panic := by
  obtain ⟨h1, h2, h3, h4, h5⟩ :=
    parseLine_head_facts a (' ' :: rest) ha haw hahash
  have hfind2 : findSpace (' ' :: rest) = some 0 := by simp [findSpace]
  have hslice : rustSlice (a ++ ' ' :: ' ' :: rest) (a.length + 1) 0 = none := by
    simp [rustSlice]
  simp [tryFrom, h1, h2, h3, h4, h5, hfind2, hslice, ha]

/-- Witness for C5 (amended): the line `ab  cd`. -/
theorem c5_multispace_witness :
    tryFrom ("ab".data ++ ' ' :: ' ' :: "cd".data) = .panic :=
  c5_multispace_amended "ab".data "cd".data (by decide) (by decide) (by decide)

/-- C8 (amended): for non-empty whitespace-free alias and path with `#`-free
path, where additionally the alias does not begin with `#`, the line
`alias ++ ' ' :: path` (a single separating space) parses to exactly
`(alias, path)`. -/
theorem c8_unquoted_amended (a p : List Char) (ha : a ≠ []) (hp : p ≠ [])
    (haw : ∀ c ∈ a, rustIsWhitespace c = false)
    (hpw : ∀ c ∈ p, rustIsWhitespace c = false)
    (hphash : '#' ∉ p) (hahash : a.head? ≠ some '#') :
    parsedPair (tryFrom (a ++ ' ' :: p)) = some (a, p) := by
  obtain ⟨h1, h2, h3, h4, h5⟩ := parseLine_head_facts a p ha haw hahash
  have hpsp : ' ' ∉ p := fun hm => by
    have h := hpw ' ' hm
    simp [rustIsWhitespace] at h
  have hfind2 : findSpace p = none := findSpace_eq_none_iff.mpr hpsp
  have htakeall : (a ++ ' ' :: p).take (a ++ ' ' :: p).length = a ++ ' ' :: p :=
    List.take_length _
  have hcond : a.length + 1 ≤ (a ++ ' ' :: p).length ∧
      (a ++ ' ' :: p).length ≤ (a ++ ' ' :: p).length := by
    constructor
    · simp only [List.length_append, List.length_cons]
      omega
    · exact Nat.le_refl _
  have hslice :
      rustSlice (a ++ ' ' :: p) (a.length + 1) (a ++ ' ' :: p).length = some p := by
    simp only [rustSlice]
    rw [if_pos hcond, htakeall, h5]
  have hlen : (a ++ ' ' :: p).length = a.length + (p.length + 1) := by simp
  rw [hlen] at hslice htakeall
  simp [tryFrom, parsedPair, Bookmark.alias, Bookmark.path, h1, h2, h3, h4, h5,
    hfind2, hslice, ha, hp, htakeall]

/-- Witness for C8 (amended): the line `cd srv`. -/
theorem c8_unquoted_witness :
    parsedPair (tryFrom ("cd".data ++ ' ' :: "srv".data)) =
      some ("cd".data, "srv".data) :=
  c8_unquoted_amended "cd".data "srv".data (by decide) (by decide) (by decide)
    (by decide) (by decide) (by decide)

/-- C6 (amended): every successfully parsed bookmark has a non-empty alias
containing no space character and a non-empty path containing no space
character.  (The stronger claim fails: the alias may contain non-space
whitespace such as a tab, and the path may contain `#` or non-space
whitespace without any quoting.) -/
theorem c6_invariant_amended (s : List Char) (b : Bookmark)
    (h : tryFrom s = .ok b) :
    b.alias ≠ [] ∧ ' ' ∉ b.alias ∧ b.path ≠ [] ∧ ' ' ∉ b.path := by
  simp only [tryFrom] at h
  split at h
  · simp at h
  · split at h
    · simp at h
    · split at h
      · simp at h
      · next i heq =>
        split at h
        · simp at h
        · next hali =>
          cases hj : findSpace (s.drop (i + 1)) with
          | none =>
            have hj2 : (match findSpace (s.drop (i + 1)) with
                | some k => k
                | none => s.length) = s.length := by rw [hj]
            rw [hj2] at h
            split at h
            · simp at h
            · next p hslice =>
              split at h
              · simp at h
              · next hpe =>
                simp only [ParseOutcome.ok.injEq] at h
                subst h
                simp only [rustSlice] at hslice
                split at hslice
                · next hrange =>
                  simp only [Option.some.injEq] at hslice
                  subst hslice
                  refine ⟨fun he => hali (by simp only [List.isEmpty_eq_true]; simpa [Bookmark.alias] using he), ?_, ?_, ?_⟩
                  · exact findSpace_take heq
                  · intro he
                    exact hpe (by simp [Bookmark.path] at he ⊢; exact he)
                  · simp only [Bookmark.path, List.take_length]
                    exact findSpace_eq_none_iff.mp hj
                · simp at hslice
          | some k =>
            have hj2 : (match findSpace (s.drop (i + 1)) with
                | some k => k
                | none => s.length) = k := by rw [hj]
            rw [hj2] at h
            split at h
            · simp at h
            · next p hslice =>
              split at h
              · simp at h
              · next hpe =>
                simp only [ParseOutcome.ok.injEq] at h
                subst h
                simp only [rustSlice] at hslice
                split at hslice
                · next hrange =>
                  simp only [Option.some.injEq] at hslice
                  subst hslice
                  refine ⟨fun he => hali (by simp only [List.isEmpty_eq_true]; simpa [Bookmark.alias] using he), ?_, ?_, ?_⟩
                  · exact findSpace_take heq
                  · intro he
                    exact hpe (by simp [Bookmark.path] at he ⊢; exact he)
                  · simp only [Bookmark.path, List.drop_take]
                    intro hm
                    exact findSpace_take hj
                      (List.take_subset_take_left _ (Nat.sub_le k (i + 1)) hm)
                · simp at hslice

/-- Witness for C6 (amended): the bookmark parsed from the line `a b`. -/
theorem c6_invariant_witness :
    (Bookmark.mk "a b".data 1 3).alias ≠ [] ∧
      ' ' ∉ (Bookmark.mk "a b".data 1 3).alias ∧
      (Bookmark.mk "a b".data 1 3).path ≠ [] ∧
      ' ' ∉ (Bookmark.mk "a b".data 1 3).path :=
  c6_invariant_amended "a b".data (Bookmark.mk "a b".data 1 3) (by decide)

/-- C7 (amended): provided no line triggers the relative-index slice panic,
file conversion is fail-fast exactly as claimed: after any prefix of lines
that parse or are comments, the first line classified `InvalidFormat` aborts
the conversion with an error carrying exactly that line's text, whatever
follows it — so no bookmark list, and hence no output, is produced — and if
instead every line parses or is a comment, the conversion returns the parsed
bookmarks in file order. -/
theorem c7_failfast_amended :
    (∀ (pre : List (List Char)) (l : List Char) (post : List (List Char)),
        (∀ x ∈ pre, (tryFrom x).isParsed = true ∨ (tryFrom x).isComment = true) →
        tryFrom l = .err (.InvalidFormat l) →
        processLines (pre ++ l :: post) = .error l) ∧
      (∀ ls : List (List Char),
        (∀ x ∈ ls, (tryFrom x).isParsed = true ∨ (tryFrom x).isComment = true) →
        processLines ls = .ok (parsedBookmarks ls)) := by
  constructor
  · intro pre l post hpre hl
    induction pre with
    | nil => simp [processLines, hl]
    | cons x pre ih =>
      have hx := hpre x (List.mem_cons_self x pre)
      have ih' := ih fun y hy => hpre y (List.mem_cons_of_mem x hy)
      simp only [List.cons_append, processLines, List.append_eq]
      cases hcase : tryFrom x with
      | panic =>
        rw [hcase] at hx
        simp [ParseOutcome.isParsed, ParseOutcome.isComment] at hx
      | err e =>
        cases e with
        | CommentLine t => exact ih'
        | InvalidFormat t =>
          rw [hcase] at hx
          simp [ParseOutcome.isParsed, ParseOutcome.isComment] at hx
      | ok b => rw [ih']
  · intro ls hls
    induction ls with
    | nil => rfl
    | cons x ls ih =>
      have hx := hls x (List.mem_cons_self x ls)
      have ih' := ih fun y hy => hls y (List.mem_cons_of_mem x hy)
      simp only [processLines, parsedBookmarks, List.filterMap_cons]
      cases hcase : tryFrom x with
      | panic =>
        rw [hcase] at hx
        simp [ParseOutcome.isParsed, ParseOutcome.isComment] at hx
      | err e =>
        cases e with
        | CommentLine t => simpa [parsedBookmarks] using ih'
        | InvalidFormat t =>
          rw [hcase] at hx
          simp [ParseOutcome.isParsed, ParseOutcome.isComment] at hx
      | ok b =>
        rw [ih']
        simp [parsedBookmarks]

/-- Witness for C7 (amended): a comment line and a good line, then the
malformed line `bad`, then a further line; conversion stops at `bad`. -/
theorem c7_failfast_witness :
    processLines ["# c".data, "a b".data, "bad".data, "x y".data] =
      .error "bad".data := by
  have h := c7_failfast_amended.1 ["# c".data, "a b".data] "bad".data
    ["x y".data] (by decide) (by decide)
  simpa using h
